import Mathlib

/-!
Shallow embedding of the retail-orders analytics module
(src/app/orders_analytics.py) and proofs of the specification claims.

A pandas DataFrame of order rows is modelled as a list of rows together
with column-presence flags for the numeric columns that
calculate_profit_by_order accesses (a missing column raises KeyError in
the source).  Grouping keys (Region, Category, Sub Category, Ship Mode)
are Option-valued: a null (NaN) key is `none`, and pandas groupby drops
null keys.  Numeric values are rationals: the source applies no rounding
and the spec demands exact equality of sums, which exact rational
arithmetic models faithfully.

The source mutates its argument (it assigns the Profit column on
orders_df and then returns orders_df), so the call is modelled by two
functions: the
returned value (`calculate_profit_by_order`) and the caller-visible
state of the argument after the call (`calculate_profit_by_order_post`);
in Python both are the same object on success, and on KeyError the
argument is left untouched because the assignment on line 19 is never
reached.
-/

namespace OrdersAnalytics

/-- One order row.  Fields mirror the columns read by the analytics
module; `profit` is the slot for the Profit column (meaningful when the
hasProfit flag of the surrounding frame is set). -/
structure Row where
  orderId : String
  region : Option String
  category : Option String
  subCategory : Option String
  shipMode : Option String
  costPrice : ℚ
  listPrice : ℚ
  quantity : ℚ
  discountPercent : ℚ
  profit : ℚ
  deriving DecidableEq

/-- A DataFrame: ordered rows plus presence flags for the columns whose
absence the source can observe (KeyError on column access). -/
structure DataFrame where
  rows : List Row
  hasCostPrice : Bool
  hasListPrice : Bool
  hasQuantity : Bool
  hasDiscountPercent : Bool
  hasProfit : Bool
  deriving DecidableEq

/-- Per-row profit, exactly the formula on lines 10-16 of the source:
revenue = List Price * Quantity * (1 - Discount Percent / 100),
cost = cost price * Quantity, profit = revenue - cost. -/
def rowProfit (r : Row) : ℚ :=
  r.listPrice * r.quantity * (1 - r.discountPercent / 100) - r.costPrice * r.quantity

/-- Populate the Profit slot of one row. -/
def addProfitRow (r : Row) : Row :=
  { r with profit := rowProfit r }

/-- calculate_profit_by_order (source lines 4-21), return value.  The
column accesses happen in source order (List Price, Quantity, Discount
Percent on line 10, then cost price on line 13); the first missing
column raises KeyError.  On success the Profit column is assigned for
every row. -/
def calculate_profit_by_order (orders_df : DataFrame) : Except String DataFrame :=
  if orders_df.hasListPrice = false then .error ("KeyError: List Price")
  else if orders_df.hasQuantity = false then .error ("KeyError: Quantity")
  else if orders_df.hasDiscountPercent = false then .error ("KeyError: Discount Percent")
  else if orders_df.hasCostPrice = false then .error ("KeyError: cost price")
  else .ok { orders_df with rows := orders_df.rows.map addProfitRow, hasProfit := true }

/-- Caller-visible state of the argument after calling
calculate_profit_by_order: the source assigns the Profit column on the
argument itself (line 19) and returns the same object, so on success the
frame of the caller is the augmented frame; on KeyError the assignment was
never reached and the frame is unchanged. -/
def calculate_profit_by_order_post (orders_df : DataFrame) : DataFrame :=
  match calculate_profit_by_order orders_df with
  | .ok mutated => mutated
  | .error _ => orders_df

/-- Maximum of a list, `none` on the empty list (pandas `Series.max()`
yields NaN on an empty series, and the downstream filter of the source then
selects nothing). -/
def listMax {α : Type} [LinearOrder α] : List α → Option α
  | [] => none
  | a :: l =>
    match listMax l with
    | none => some a
    | some m => some (max a m)

theorem listMax_eq_none_iff {α : Type} [LinearOrder α] {l : List α} :
    listMax l = none ↔ l = [] := by
  cases l with
  | nil => simp [listMax]
  | cons a l =>
    simp only [listMax]
    cases h : listMax l <;> simp

theorem listMax_mem {α : Type} [LinearOrder α] :
    ∀ {l : List α} {m : α}, listMax l = some m → m ∈ l := by
  intro l
  induction l with
  | nil => intro m h; simp [listMax] at h
  | cons a l ih =>
    intro m h
    simp only [listMax] at h
    cases hl : listMax l with
    | none =>
      rw [hl] at h
      simp at h
      simp [h]
    | some m' =>
      rw [hl] at h
      simp at h
      rcases max_choice a m' with hc | hc
      · rw [hc] at h; simp [h]
      · rw [hc] at h
        subst h
        exact List.mem_cons_of_mem a (ih hl)

theorem le_listMax {α : Type} [LinearOrder α] :
    ∀ {l : List α} {a m : α}, a ∈ l → listMax l = some m → a ≤ m := by
  intro l
  induction l with
  | nil => intro a m ha; simp at ha
  | cons b l ih =>
    intro a m ha h
    simp only [listMax] at h
    cases hl : listMax l with
    | none =>
      rw [hl] at h
      simp at h
      have : l = [] := listMax_eq_none_iff.1 hl
      subst this
      simp at ha
      simp [ha, h]
    | some m' =>
      rw [hl] at h
      simp at h
      subst h
      rcases List.mem_cons.1 ha with rfl | ha'
      · exact le_max_left _ _
      · exact le_trans (ih ha' hl) (le_max_right _ _)

/-- Ordering used for the region report: ascending by region name
(the source sorts the tie list by its first component). -/
def regionLE (a b : String × ℚ) : Prop := a.1 ≤ b.1

instance : DecidableRel regionLE :=
  fun a b => inferInstanceAs (Decidable (a.1 ≤ b.1))

instance : IsTotal (String × ℚ) regionLE :=
  ⟨fun a b => le_total a.1 b.1⟩

instance : IsTrans (String × ℚ) regionLE :=
  ⟨fun _ _ _ hab hbc => le_trans hab hbc⟩

/-- Ordering used for the ship-method and category-count reports:
ascending lexicographically by (first key, second key), mirroring
sort_values on the two key columns. -/
def catShipLE (a b : String × String × Nat) : Prop :=
  a.1 < b.1 ∨ (a.1 = b.1 ∧ a.2.1 ≤ b.2.1)

instance : DecidableRel catShipLE :=
  fun a b => inferInstanceAs (Decidable (a.1 < b.1 ∨ (a.1 = b.1 ∧ a.2.1 ≤ b.2.1)))

instance : IsTotal (String × String × Nat) catShipLE := by
  constructor
  intro a b
  rcases lt_trichotomy a.1 b.1 with h | h | h
  · exact Or.inl (Or.inl h)
  · rcases le_total a.2.1 b.2.1 with h2 | h2
    · exact Or.inl (Or.inr ⟨h, h2⟩)
    · exact Or.inr (Or.inr ⟨h.symm, h2⟩)
  · exact Or.inr (Or.inl h)

instance : IsTrans (String × String × Nat) catShipLE := by
  constructor
  intro a b c hab hbc
  rcases hab with h1 | ⟨h1, h1'⟩
  · rcases hbc with h2 | ⟨h2, _⟩
    · exact Or.inl (lt_trans h1 h2)
    · exact Or.inl (h2 ▸ h1)
  · rcases hbc with h2 | ⟨h2, h2'⟩
    · exact Or.inl (h1 ▸ h2)
    · exact Or.inr ⟨h1.trans h2, le_trans h1' h2'⟩

/-- Distinct grouping keys of a key/value pair list, in first-occurrence
order (pandas groupby sorts them, but every use below is followed by an
explicit sort, so only the set of keys matters). -/
def keyList {α β : Type} [DecidableEq α] (pairs : List (α × β)) : List α :=
  (pairs.map Prod.fst).dedup

/-- Sum of the values attached to one key: the per-group sum of a
groupby(key)[value].sum(). -/
def keySum (pairs : List (String × ℚ)) (reg : String) : ℚ :=
  ((pairs.filter fun p => decide (p.1 = reg)).map Prod.snd).sum

/-- The (Region, Profit) projection of the rows; a row with a null
Region is dropped, exactly as pandas groupby drops null keys. -/
def regionProfitPairs (rows : List Row) : List (String × ℚ) :=
  rows.filterMap fun r =>
    match r.region with
    | some reg => some (reg, r.profit)
    | none => none

/-- Core of calculate_most_profitable_region (source lines 23-43) over
the non-null (Region, Profit) pairs: group by region and sum profit,
take the maximum of the sums, keep every region whose sum equals it,
sort by region name. -/
def regionFromPairs (pairs : List (String × ℚ)) : List (String × ℚ) :=
  match listMax ((keyList pairs).map fun reg => keySum pairs reg) with
  | none => []
  | some max_profit =>
    List.insertionSort regionLE
      (((keyList pairs).map fun reg => (reg, keySum pairs reg)).filter
        fun p => decide (p.2 = max_profit))

/-- calculate_most_profitable_region (source lines 23-43). -/
def calculate_most_profitable_region (rows : List Row) : List (String × ℚ) :=
  regionFromPairs (regionProfitPairs rows)

/-- The (Category, Ship Mode) projection of the rows; a row whose
Category or Ship Mode is null is dropped by groupby. -/
def catShipPairs (rows : List Row) : List (String × String) :=
  rows.filterMap fun r =>
    match r.category, r.shipMode with
    | some c, some s => some (c, s)
    | _, _ => none

/-- The (Category, Sub Category) projection of the rows; a row whose
Category or Sub Category is null is dropped by groupby. -/
def catSubPairs (rows : List Row) : List (String × String) :=
  rows.filterMap fun r =>
    match r.category, r.subCategory with
    | some c, some s => some (c, s)
    | _, _ => none

/-- groupby(pair).size(): one (key1, key2, count) triple per distinct
pair observed. -/
def pairCounts (pairs : List (String × String)) : List (String × String × Nat) :=
  pairs.dedup.map fun p => (p.1, p.2, pairs.count p)

/-- The rows of the counts table belonging to one category (the
per-category group of the groupby on line 58 of the source). -/
def shipGroup (pairs : List (String × String)) (c : String) : List (String × String × Nat) :=
  (pairCounts pairs).filter fun t => decide (t.1 = c)

/-- The per-category maximum ship-method count (the max over the
group of that category in the counts table); none when the category is not
observed. -/
def categoryMaxCount (pairs : List (String × String)) (c : String) : Option Nat :=
  listMax ((shipGroup pairs c).map fun t => t.2.2)

/-- Core of find_most_common_ship_method (source lines 45-66) over the
non-null (Category, Ship Mode) pairs: count each pair, then within each
category keep every row of the counts table whose count equals the
category maximum, concatenate and sort by (Category, Ship Mode). -/
def shipFromPairs (pairs : List (String × String)) : List (String × String × Nat) :=
  List.insertionSort catShipLE
    (((keyList pairs).map fun c =>
      (shipGroup pairs c).filter fun t =>
        decide (some t.2.2 = categoryMaxCount pairs c)).flatten)

/-- find_most_common_ship_method (source lines 45-66). -/
def find_most_common_ship_method (rows : List Row) : List (String × String × Nat) :=
  shipFromPairs (catShipPairs rows)

/-- Core of find_number_of_order_per_category (source lines 68-76) over
the non-null (Category, Sub Category) pairs: one counted row per
distinct pair (groupby sorts its keys; modelled by an explicit sort). -/
def countFromPairs (pairs : List (String × String)) : List (String × String × Nat) :=
  List.insertionSort catShipLE (pairCounts pairs)

/-- find_number_of_order_per_category (source lines 68-76). -/
def find_number_of_order_per_category (rows : List Row) : List (String × String × Nat) :=
  countFromPairs (catSubPairs rows)

/-- The bundle returned by generate_analytics_reports. -/
structure Reports where
  orders_with_profit : DataFrame
  most_profitable_region : List (String × ℚ)
  most_common_ship_method : List (String × String × Nat)
  orders_by_category : List (String × String × Nat)
  deriving DecidableEq

/-- generate_analytics_reports (source lines 78-99).  The first step
mutates the orders_df of the caller in place (it is the same object as
orders_with_profit afterwards), so the later reports read the
caller-visible post-call state of orders_df. -/
def generate_analytics_reports (orders_df : DataFrame) : Except String Reports :=
  match calculate_profit_by_order orders_df with
  | .error e => .error e
  | .ok orders_with_profit =>
    .ok
      { orders_with_profit := orders_with_profit
        most_profitable_region := calculate_most_profitable_region orders_with_profit.rows
        most_common_ship_method :=
          find_most_common_ship_method (calculate_profit_by_order_post orders_df).rows
        orders_by_category :=
          find_number_of_order_per_category (calculate_profit_by_order_post orders_df).rows }

/-- All input columns of a row except the derived Profit slot, used to
state that the profit augmentation changes nothing else. -/
def Row.originalFields (r : Row) :
    String × Option String × Option String × Option String × Option String × ℚ × ℚ × ℚ × ℚ :=
  (r.orderId, r.region, r.category, r.subCategory, r.shipMode,
    r.costPrice, r.listPrice, r.quantity, r.discountPercent)

/-- The distinct non-null regions of the rows. -/
def regionKeys (rows : List Row) : List String :=
  (rows.filterMap Row.region).dedup

/-- Total profit of one region: the sum of the Profit column over the
rows whose Region equals it. -/
def regionProfitSum (rows : List Row) (reg : String) : ℚ :=
  ((rows.filter fun r => decide (r.region = some reg)).map Row.profit).sum

/-- A concrete one-row frame with every required column (values from the
own test data of the repository). -/
def sampleRow : Row :=
  { orderId := "CA-2023-1000", region := some ("West"), category := some ("Furniture"),
    subCategory := some ("Bookcases"), shipMode := some ("Standard Class"),
    costPrice := 240, listPrice := 260, quantity := 2, discountPercent := 2, profit := 0 }

def sampleDF : DataFrame :=
  { rows := [sampleRow], hasCostPrice := true, hasListPrice := true,
    hasQuantity := true, hasDiscountPercent := true, hasProfit := false }

/-- The same frame with the cost price column dropped. -/
def sampleMissingDF : DataFrame :=
  { rows := [sampleRow], hasCostPrice := false, hasListPrice := true,
    hasQuantity := true, hasDiscountPercent := true, hasProfit := false }

/-- C1: for every dataset with the required numeric columns present,
calculate_profit_by_order succeeds and the Profit value of every row is
list_price * quantity * (1 - discount_percent / 100) - cost_price * quantity,
with no rounding applied (exact rational arithmetic). -/
theorem profit_formula_per_row (df : DataFrame)
    (hl : df.hasListPrice = true) (hq : df.hasQuantity = true)
    (hd : df.hasDiscountPercent = true) (hc : df.hasCostPrice = true) :
    ∃ out, calculate_profit_by_order df = .ok out ∧
      out.rows.map Row.profit =
        df.rows.map fun r =>
          r.listPrice * r.quantity * (1 - r.discountPercent / 100) -
            r.costPrice * r.quantity := by
  refine ⟨{ df with rows := df.rows.map addProfitRow, hasProfit := true }, ?_, ?_⟩
  · simp [calculate_profit_by_order, hl, hq, hd, hc]
  · rw [List.map_map]
    rfl

/-- C1 witness: the formula theorem applied to a concrete one-row frame. -/
theorem profit_formula_per_row_witness :
    ∃ out, calculate_profit_by_order sampleDF = .ok out ∧
      out.rows.map Row.profit =
        sampleDF.rows.map fun r =>
          r.listPrice * r.quantity * (1 - r.discountPercent / 100) -
            r.costPrice * r.quantity :=
  profit_formula_per_row sampleDF rfl rfl rfl rfl

/-- C4 counterexample: the claim that calculate_profit_by_order leaves
the caller-visible dataset unmutated is false: on a concrete one-row
frame the caller-visible frame after the call differs from the original (the
Profit column has been assigned on the argument itself). -/
theorem profit_no_mutation_counterexample :
    ¬ (calculate_profit_by_order_post sampleDF = sampleDF) := by
  intro h
  have h2 := congrArg DataFrame.hasProfit h
  simp [calculate_profit_by_order_post, calculate_profit_by_order, sampleDF] at h2

/-- C4 amended: calculate_profit_by_order augments the table of the caller in
place: on every frame with the required columns and no Profit column
yet, the returned frame is exactly the caller-visible post-call state of
the argument (the same object), and that state differs from the
original. -/
theorem profit_augments_in_place (df : DataFrame)
    (hl : df.hasListPrice = true) (hq : df.hasQuantity = true)
    (hd : df.hasDiscountPercent = true) (hc : df.hasCostPrice = true)
    (hp : df.hasProfit = false) :
    calculate_profit_by_order df = .ok (calculate_profit_by_order_post df) ∧
      calculate_profit_by_order_post df ≠ df := by
  have hok : calculate_profit_by_order df =
      .ok { df with rows := df.rows.map addProfitRow, hasProfit := true } := by
    simp [calculate_profit_by_order, hl, hq, hd, hc]
  have hpost : calculate_profit_by_order_post df =
      { df with rows := df.rows.map addProfitRow, hasProfit := true } := by
    simp [calculate_profit_by_order_post, hok]
  constructor
  · rw [hpost, hok]
  · rw [hpost]
    intro h
    have h2 := congrArg DataFrame.hasProfit h
    rw [hp] at h2
    simp at h2

/-- C4 witness: the amended in-place-augmentation theorem applied to a
concrete one-row frame. -/
theorem profit_augments_in_place_witness :
    calculate_profit_by_order sampleDF = .ok (calculate_profit_by_order_post sampleDF) ∧
      calculate_profit_by_order_post sampleDF ≠ sampleDF :=
  profit_augments_in_place sampleDF rfl rfl rfl rfl rfl

/-- C6: calling calculate_profit_by_order on a frame lacking the cost
price or List Price column fails with an error and atomically: the
caller-visible frame is unchanged, so no partial Profit column is left
populated and no partial result is returned. -/
theorem missing_field_error (df : DataFrame)
    (h : df.hasCostPrice = false ∨ df.hasListPrice = false) :
    (∃ e, calculate_profit_by_order df = .error e) ∧
      calculate_profit_by_order_post df = df := by
  have key : ∃ e, calculate_profit_by_order df = .error e := by
    cases hL : df.hasListPrice with
    | false => exact ⟨("KeyError: List Price"), by simp [calculate_profit_by_order, hL]⟩
    | true =>
      rcases h with h | h
      · cases hQ : df.hasQuantity with
        | false => exact ⟨("KeyError: Quantity"), by simp [calculate_profit_by_order, hL, hQ]⟩
        | true =>
          cases hD : df.hasDiscountPercent with
          | false => exact ⟨("KeyError: Discount Percent"), by simp [calculate_profit_by_order, hL, hQ, hD]⟩
          | true => exact ⟨("KeyError: cost price"), by simp [calculate_profit_by_order, hL, hQ, hD, h]⟩
      · rw [h] at hL
        exact absurd hL (by simp)
  obtain ⟨e, he⟩ := key
  exact ⟨⟨e, he⟩, by simp [calculate_profit_by_order_post, he]⟩

/-- C6 witness: the missing-column theorem applied to a concrete frame
without the cost price column. -/
theorem missing_field_error_witness :
    (∃ e, calculate_profit_by_order sampleMissingDF = .error e) ∧
      calculate_profit_by_order_post sampleMissingDF = sampleMissingDF :=
  missing_field_error sampleMissingDF (Or.inl rfl)

/-- C7: on a dataset with zero rows, each of the three aggregators
returns a well-shaped empty report instead of failing. -/
theorem empty_input_reports :
    calculate_most_profitable_region [] = [] ∧
      find_most_common_ship_method [] = [] ∧
      find_number_of_order_per_category [] = [] :=
  ⟨rfl, rfl, rfl⟩

/-- C8: on every frame with the required columns, the frame returned by
calculate_profit_by_order has the same row count and row order, keeps
every original column value unchanged (all fields except the derived
Profit slot), differs only by the now-present Profit column, and maps
the empty frame to an empty frame with the Profit column present. -/
theorem profit_preserves_rows (df : DataFrame)
    (hl : df.hasListPrice = true) (hq : df.hasQuantity = true)
    (hd : df.hasDiscountPercent = true) (hc : df.hasCostPrice = true) :
    ∃ out, calculate_profit_by_order df = .ok out ∧
      out.rows.length = df.rows.length ∧
      out.rows.map Row.originalFields = df.rows.map Row.originalFields ∧
      out.hasProfit = true ∧
      out.hasCostPrice = df.hasCostPrice ∧
      out.hasListPrice = df.hasListPrice ∧
      out.hasQuantity = df.hasQuantity ∧
      out.hasDiscountPercent = df.hasDiscountPercent ∧
      (df.rows = [] → out.rows = []) := by
  refine ⟨{ df with rows := df.rows.map addProfitRow, hasProfit := true },
    ?_, by simp, ?_, rfl, rfl, rfl, rfl, rfl, ?_⟩
  · simp [calculate_profit_by_order, hl, hq, hd, hc]
  · rw [List.map_map]
    rfl
  · intro h
    simp [h]

/-- C8 witness: the row-preservation theorem applied to a concrete
one-row frame. -/
theorem profit_preserves_rows_witness :
    ∃ out, calculate_profit_by_order sampleDF = .ok out ∧
      out.rows.length = sampleDF.rows.length ∧
      out.rows.map Row.originalFields = sampleDF.rows.map Row.originalFields ∧
      out.hasProfit = true ∧
      out.hasCostPrice = sampleDF.hasCostPrice ∧
      out.hasListPrice = sampleDF.hasListPrice ∧
      out.hasQuantity = sampleDF.hasQuantity ∧
      out.hasDiscountPercent = sampleDF.hasDiscountPercent ∧
      (sampleDF.rows = [] → out.rows = []) :=
  profit_preserves_rows sampleDF rfl rfl rfl rfl

theorem mem_keyProfits {pairs : List (String × ℚ)} {reg : String} {q : ℚ} :
    (reg, q) ∈ (keyList pairs).map (fun s => (s, keySum pairs s)) ↔
      reg ∈ keyList pairs ∧ q = keySum pairs reg := by
  simp only [List.mem_map, Prod.mk.injEq]
  constructor
  · rintro ⟨s, hs, rfl, rfl⟩
    exact ⟨hs, rfl⟩
  · rintro ⟨hreg, rfl⟩
    exact ⟨reg, hreg, rfl, rfl⟩

theorem regionProfitPairs_map_fst (rows : List Row) :
    (regionProfitPairs rows).map Prod.fst = rows.filterMap Row.region := by
  induction rows with
  | nil => rfl
  | cons r rows ih =>
    cases h : r.region with
    | none =>
      simp only [regionProfitPairs, List.filterMap_cons, h] at ih ⊢
      exact ih
    | some s =>
      simp only [regionProfitPairs, List.filterMap_cons, h, List.map_cons] at ih ⊢
      rw [ih]

theorem keyList_regionProfitPairs (rows : List Row) :
    keyList (regionProfitPairs rows) = regionKeys rows := by
  unfold keyList regionKeys
  rw [regionProfitPairs_map_fst]

theorem keySum_regionProfitPairs (rows : List Row) (reg : String) :
    keySum (regionProfitPairs rows) reg = regionProfitSum rows reg := by
  unfold keySum regionProfitSum
  induction rows with
  | nil => rfl
  | cons r rows ih =>
    cases h : r.region with
    | none =>
      simpa [regionProfitPairs, List.filterMap_cons, h, List.filter_cons] using ih
    | some s =>
      by_cases hs : s = reg
      · subst hs
        simp only [regionProfitPairs] at ih
        simp [regionProfitPairs, List.filterMap_cons, h, List.filter_cons, ih]
      · simp only [regionProfitPairs, List.filterMap_cons, h, List.filter_cons] at ih ⊢
        simpa [hs] using ih

theorem regionFromPairs_mem (pairs : List (String × ℚ)) (reg : String) (q : ℚ) :
    (reg, q) ∈ regionFromPairs pairs ↔
      (reg ∈ keyList pairs ∧ q = keySum pairs reg ∧
        listMax ((keyList pairs).map fun s => keySum pairs s) = some q) := by
  unfold regionFromPairs
  cases h : listMax ((keyList pairs).map fun reg => keySum pairs reg) with
  | none => simp
  | some m =>
    rw [(List.perm_insertionSort _ _).mem_iff, List.mem_filter]
    simp only [decide_eq_true_eq, Option.some.injEq]
    rw [mem_keyProfits]
    constructor
    · rintro ⟨⟨hreg, rfl⟩, hq⟩
      exact ⟨hreg, rfl, hq.symm⟩
    · rintro ⟨hreg, rfl, hm⟩
      exact ⟨⟨hreg, rfl⟩, hm.symm⟩

theorem regionFromPairs_sorted (pairs : List (String × ℚ)) :
    List.Sorted regionLE (regionFromPairs pairs) := by
  unfold regionFromPairs
  cases h : listMax ((keyList pairs).map fun reg => keySum pairs reg) with
  | none => exact List.sorted_nil
  | some m => exact List.sorted_insertionSort regionLE _

theorem regionFromPairs_nodup (pairs : List (String × ℚ)) :
    ((regionFromPairs pairs).map Prod.fst).Nodup := by
  unfold regionFromPairs
  cases h : listMax ((keyList pairs).map fun reg => keySum pairs reg) with
  | none => simp
  | some m =>
    have hbase : (((keyList pairs).map fun s => (s, keySum pairs s)).map Prod.fst).Nodup := by
      rw [List.map_map]
      have hid : (Prod.fst ∘ fun s => (s, keySum pairs s)) = id := rfl
      rw [hid, List.map_id]
      exact List.nodup_dedup _
    have hfil :=
      (List.filter_sublist ((keyList pairs).map fun s => (s, keySum pairs s))
        (p := fun p => decide (p.2 = m))).map Prod.fst
    have hnf := hbase.sublist hfil
    exact (((List.perm_insertionSort regionLE _).map Prod.fst).nodup_iff).2 hnf

theorem regionFromPairs_eq_nil_iff (pairs : List (String × ℚ)) :
    regionFromPairs pairs = [] ↔ keyList pairs = [] := by
  unfold regionFromPairs
  cases h : listMax ((keyList pairs).map fun reg => keySum pairs reg) with
  | none =>
    have h2 := listMax_eq_none_iff.1 h
    rw [List.map_eq_nil_iff] at h2
    simp [h2]
  | some m =>
    show List.insertionSort regionLE
        (((keyList pairs).map fun s => (s, keySum pairs s)).filter
          fun p => decide (p.2 = m)) = [] ↔ keyList pairs = []
    constructor
    · intro hnil
      exfalso
      have hm := listMax_mem h
      obtain ⟨reg, hreg, hregm⟩ := List.mem_map.1 hm
      have hpair : (reg, keySum pairs reg) ∈ (keyList pairs).map fun s => (s, keySum pairs s) :=
        List.mem_map.2 ⟨reg, hreg, rfl⟩
      have hfil : (reg, keySum pairs reg) ∈
          ((keyList pairs).map fun s => (s, keySum pairs s)).filter
            fun p => decide (p.2 = m) :=
        List.mem_filter.2 ⟨hpair, by simp [hregm]⟩
      have hmem := ((List.perm_insertionSort regionLE _).mem_iff).2 hfil
      rw [hnil] at hmem
      simp at hmem
    · intro hk
      rw [hk] at h
      simp [listMax] at h

/-- C2: calculate_most_profitable_region returns exactly the regions
whose per-region profit sum equals the maximum of all per-region sums
(exact equality), each paired with that maximal total, with no duplicate
region and sorted ascending by region name; the result is empty exactly
when no row has a non-null region, so on all-negative sums the
least-negative (maximum) regions are still returned. -/
theorem most_profitable_region_spec (rows : List Row) :
    (∀ reg q, (reg, q) ∈ calculate_most_profitable_region rows ↔
        (reg ∈ regionKeys rows ∧ q = regionProfitSum rows reg ∧
          listMax ((regionKeys rows).map fun s => regionProfitSum rows s) = some q)) ∧
      ((calculate_most_profitable_region rows).map Prod.fst).Nodup ∧
      List.Sorted regionLE (calculate_most_profitable_region rows) ∧
      (calculate_most_profitable_region rows = [] ↔ regionKeys rows = []) := by
  have hk := keyList_regionProfitPairs rows
  have hs : ∀ reg, keySum (regionProfitPairs rows) reg = regionProfitSum rows reg :=
    keySum_regionProfitPairs rows
  refine ⟨?_, ?_, ?_, ?_⟩
  · intro reg q
    have h1 := regionFromPairs_mem (regionProfitPairs rows) reg q
    rw [hk] at h1
    simp only [hs] at h1
    exact h1
  · exact regionFromPairs_nodup (regionProfitPairs rows)
  · exact regionFromPairs_sorted (regionProfitPairs rows)
  · have h4 := regionFromPairs_eq_nil_iff (regionProfitPairs rows)
    rw [hk] at h4
    exact h4

theorem mem_pairCounts {pairs : List (String × String)} {c s : String} {n : Nat} :
    (c, s, n) ∈ pairCounts pairs ↔ (c, s) ∈ pairs.dedup ∧ n = pairs.count (c, s) := by
  simp only [pairCounts, List.mem_map, Prod.mk.injEq]
  constructor
  · rintro ⟨p, hp, h1, h2, h3⟩
    have hp2 : p = (c, s) := by
      cases p
      simp only at h1 h2
      simp [h1, h2]
    rw [hp2] at hp h3
    exact ⟨hp, h3.symm⟩
  · rintro ⟨hmem, rfl⟩
    exact ⟨(c, s), hmem, rfl, rfl, rfl⟩

theorem mem_shipGroup_fst {pairs : List (String × String)} {c : String}
    {t : String × String × Nat} (h : t ∈ shipGroup pairs c) : t.1 = c := by
  unfold shipGroup at h
  rw [List.mem_filter, decide_eq_true_eq] at h
  exact h.2

theorem shipGroup_filter_sublist (pairs : List (String × String)) (c : String)
    (P : String × String × Nat → Bool) :
    List.Sublist ((shipGroup pairs c).filter P) (pairCounts pairs) :=
  (List.filter_sublist _).trans (List.filter_sublist _)

theorem pairCounts_proj_nodup (pairs : List (String × String)) :
    ((pairCounts pairs).map fun t => (t.1, t.2.1)).Nodup := by
  unfold pairCounts
  rw [List.map_map]
  have hid : ((fun t : String × String × Nat => (t.1, t.2.1)) ∘
      fun p : String × String => (p.1, p.2, pairs.count p)) = id := rfl
  rw [hid, List.map_id]
  exact List.nodup_dedup _

theorem shipFromPairs_mem (pairs : List (String × String)) (c s : String) (n : Nat) :
    (c, s, n) ∈ shipFromPairs pairs ↔
      ((c, s) ∈ pairs ∧ n = pairs.count (c, s) ∧
        categoryMaxCount pairs c = some n) := by
  unfold shipFromPairs
  rw [(List.perm_insertionSort _ _).mem_iff, List.mem_flatten]
  constructor
  · rintro ⟨l, hl, hmem⟩
    obtain ⟨c', hc', rfl⟩ := List.mem_map.1 hl
    rw [List.mem_filter, decide_eq_true_eq] at hmem
    obtain ⟨hg, hmax⟩ := hmem
    have hc1 : c = c' := mem_shipGroup_fst hg
    subst hc1
    unfold shipGroup at hg
    rw [List.mem_filter] at hg
    rw [mem_pairCounts] at hg
    exact ⟨List.mem_dedup.1 hg.1.1, hg.1.2, hmax.symm⟩
  · rintro ⟨hmem, rfl, hmax⟩
    refine ⟨(shipGroup pairs c).filter fun t => decide (some t.2.2 = categoryMaxCount pairs c),
      List.mem_map.2 ⟨c, ?_, rfl⟩, ?_⟩
    · unfold keyList
      exact List.mem_dedup.2 (List.mem_map.2 ⟨(c, s), hmem, rfl⟩)
    · rw [List.mem_filter]
      refine ⟨?_, by simp [hmax]⟩
      unfold shipGroup
      rw [List.mem_filter]
      exact ⟨mem_pairCounts.2 ⟨List.mem_dedup.2 hmem, rfl⟩, by simp⟩

theorem shipFromPairs_sorted (pairs : List (String × String)) :
    List.Sorted catShipLE (shipFromPairs pairs) :=
  List.sorted_insertionSort catShipLE _

theorem shipFromPairs_nodup (pairs : List (String × String)) :
    ((shipFromPairs pairs).map fun t => (t.1, t.2.1)).Nodup := by
  unfold shipFromPairs
  apply (((List.perm_insertionSort catShipLE _).map fun t => (t.1, t.2.1)).nodup_iff).2
  rw [List.map_flatten, List.map_map, List.nodup_flatten]
  constructor
  · intro l hl
    obtain ⟨c, hc, rfl⟩ := List.mem_map.1 hl
    show (((shipGroup pairs c).filter fun t =>
      decide (some t.2.2 = categoryMaxCount pairs c)).map fun t => (t.1, t.2.1)).Nodup
    exact (pairCounts_proj_nodup pairs).sublist
      ((shipGroup_filter_sublist pairs c
        (fun t => decide (some t.2.2 = categoryMaxCount pairs c))).map fun t => (t.1, t.2.1))
  · rw [List.pairwise_map]
    have hkeys : (keyList pairs).Nodup := List.nodup_dedup _
    refine hkeys.imp ?_
    intro c1 c2 hne
    intro a ha1 ha2
    apply hne
    simp only [Function.comp] at ha1 ha2
    obtain ⟨t1, ht1, rfl⟩ := List.mem_map.1 ha1
    obtain ⟨t2, ht2, hproj⟩ := List.mem_map.1 ha2
    have h1 : t1.1 = c1 := mem_shipGroup_fst (List.mem_filter.1 ht1).1
    have h2 : t2.1 = c2 := mem_shipGroup_fst (List.mem_filter.1 ht2).1
    have : t1.1 = t2.1 := by
      have := congrArg Prod.fst hproj
      simpa using this.symm
    rw [h1, h2] at this
    exact this

theorem shipFromPairs_categories (pairs : List (String × String)) (c : String) :
    c ∈ pairs.map Prod.fst ↔ ∃ s n, (c, s, n) ∈ shipFromPairs pairs := by
  constructor
  · intro hc
    obtain ⟨p, hp, hfst⟩ := List.mem_map.1 hc
    have hcount : (p.1, p.2, pairs.count p) ∈ pairCounts pairs := by
      unfold pairCounts
      exact List.mem_map.2 ⟨p, List.mem_dedup.2 hp, rfl⟩
    have hgrp : (p.1, p.2, pairs.count p) ∈ shipGroup pairs c := by
      unfold shipGroup
      rw [List.mem_filter]
      exact ⟨hcount, by simp [hfst]⟩
    have hne : (shipGroup pairs c).map (fun t => t.2.2) ≠ [] := by
      intro hemp
      rw [List.map_eq_nil_iff] at hemp
      rw [hemp] at hgrp
      simp at hgrp
    obtain ⟨m, hm⟩ : ∃ m, categoryMaxCount pairs c = some m := by
      unfold categoryMaxCount
      cases hx : listMax ((shipGroup pairs c).map fun t => t.2.2) with
      | none => exact absurd (listMax_eq_none_iff.1 hx) hne
      | some m => exact ⟨m, rfl⟩
    have hmem := listMax_mem
      (show listMax ((shipGroup pairs c).map fun t => t.2.2) = some m from hm)
    obtain ⟨t, ht, htm⟩ := List.mem_map.1 hmem
    obtain ⟨c', s', n'⟩ := t
    have hc' : c' = c := mem_shipGroup_fst ht
    subst hc'
    unfold shipGroup at ht
    rw [List.mem_filter] at ht
    rw [mem_pairCounts] at ht
    have htm' : n' = m := htm
    refine ⟨s', n', (shipFromPairs_mem pairs c' s' n').2
      ⟨List.mem_dedup.1 ht.1.1, ht.1.2, ?_⟩⟩
    rw [hm, htm']
  · rintro ⟨s, n, hmem⟩
    have h := (shipFromPairs_mem pairs c s n).1 hmem
    exact List.mem_map.2 ⟨(c, s), h.1, rfl⟩

/-- C3: for every dataset, find_most_common_ship_method returns, for
each observed category, exactly the (category, ship method, count) rows
whose count equals the maximum pair count of that category — every tied
method retained, no non-maximal method present, no duplicate
(category, method) row — sorted by (category, ship method) ascending,
and every observed category is represented. -/
theorem ship_method_spec (rows : List Row) :
    (∀ c s n, (c, s, n) ∈ find_most_common_ship_method rows ↔
        ((c, s) ∈ catShipPairs rows ∧ n = (catShipPairs rows).count (c, s) ∧
          categoryMaxCount (catShipPairs rows) c = some n)) ∧
      ((find_most_common_ship_method rows).map fun t => (t.1, t.2.1)).Nodup ∧
      List.Sorted catShipLE (find_most_common_ship_method rows) ∧
      (∀ c, c ∈ (catShipPairs rows).map Prod.fst ↔
        ∃ s n, (c, s, n) ∈ find_most_common_ship_method rows) :=
  ⟨fun c s n => shipFromPairs_mem (catShipPairs rows) c s n,
    shipFromPairs_nodup (catShipPairs rows),
    shipFromPairs_sorted (catShipPairs rows),
    fun c => shipFromPairs_categories (catShipPairs rows) c⟩

theorem sum_map_add_nat {α : Type} (f g : α → Nat) :
    ∀ l : List α, (l.map fun x => f x + g x).sum = (l.map f).sum + (l.map g).sum
  | [] => rfl
  | x :: l => by
    simp [sum_map_add_nat f g l]
    omega

theorem count_eq_one_of_nodup_mem {α : Type} [BEq α] [LawfulBEq α]
    {ks : List α} {a : α} (hnd : ks.Nodup) (ha : a ∈ ks) : ks.count a = 1 := by
  induction ks with
  | nil => simp at ha
  | cons x ks ih =>
    rw [List.count_cons]
    rcases List.mem_cons.1 ha with rfl | ha'
    · rw [List.count_eq_zero.2 (fun hmem => (List.nodup_cons.1 hnd).1 hmem)]
      simp
    · rw [ih (List.nodup_cons.1 hnd).2 ha']
      have hne : ¬ x = a := by
        intro h
        subst h
        exact (List.nodup_cons.1 hnd).1 ha'
      simp [hne]

theorem sum_map_ite {α : Type} [BEq α] [LawfulBEq α] [DecidableEq α] (a : α) :
    ∀ ks : List α, (ks.map fun x => if x = a then 1 else 0).sum = ks.count a
  | [] => rfl
  | x :: ks => by
    by_cases h : x = a
    · simp [List.count_cons, h, sum_map_ite a ks]
      omega
    · simp [List.count_cons, h, sum_map_ite a ks]

theorem sum_map_count_of_nodup {α : Type} [BEq α] [LawfulBEq α] [DecidableEq α] :
    ∀ (l ks : List α), ks.Nodup → (∀ x ∈ l, x ∈ ks) →
      (ks.map fun x => l.count x).sum = l.length
  | [], ks, _, _ => by simp [List.count_nil]
  | a :: l, ks, hnd, hsub => by
    have ih := sum_map_count_of_nodup l ks hnd fun x hx => hsub x (List.mem_cons_of_mem a hx)
    have hcount : ∀ x, (a :: l).count x = l.count x + if x = a then 1 else 0 := by
      intro x
      rw [List.count_cons]
      by_cases h : a = x
      · subst h
        simp
      · have h2 : ¬ x = a := fun hh => h hh.symm
        simp [h, h2]
    calc (ks.map fun x => (a :: l).count x).sum
        = (ks.map fun x => l.count x + if x = a then 1 else 0).sum := by
          simp only [hcount]
      _ = (ks.map fun x => l.count x).sum + (ks.map fun x => if x = a then 1 else 0).sum :=
          sum_map_add_nat _ _ ks
      _ = l.length + ks.count a := by rw [ih, sum_map_ite]
      _ = (a :: l).length := by
          rw [count_eq_one_of_nodup_mem hnd (hsub a (List.mem_cons_self a l))]
          simp [Nat.add_comm]

theorem sum_map_count_dedup {α : Type} [BEq α] [LawfulBEq α] [DecidableEq α] (l : List α) :
    (l.dedup.map fun x => l.count x).sum = l.length :=
  sum_map_count_of_nodup l l.dedup (List.nodup_dedup l) fun _ hx => List.mem_dedup.2 hx

theorem catSubPairs_length (rows : List Row) :
    (catSubPairs rows).length =
      (rows.filter fun r => r.category.isSome && r.subCategory.isSome).length := by
  induction rows with
  | nil => rfl
  | cons r rows ih =>
    simp only [catSubPairs] at ih ⊢
    cases hc : r.category <;> cases hs : r.subCategory <;>
      simp [List.filterMap_cons, hc, hs, List.filter_cons, ih]

theorem countFromPairs_mem (pairs : List (String × String)) (c s : String) (n : Nat) :
    (c, s, n) ∈ countFromPairs pairs ↔
      ((c, s) ∈ pairs ∧ n = pairs.count (c, s)) := by
  unfold countFromPairs
  rw [(List.perm_insertionSort _ _).mem_iff, mem_pairCounts, List.mem_dedup]

theorem countFromPairs_nodup (pairs : List (String × String)) :
    ((countFromPairs pairs).map fun t => (t.1, t.2.1)).Nodup := by
  unfold countFromPairs
  exact (((List.perm_insertionSort catShipLE _).map fun t => (t.1, t.2.1)).nodup_iff).2
    (pairCounts_proj_nodup pairs)

theorem countFromPairs_sum (pairs : List (String × String)) :
    ((countFromPairs pairs).map fun t => t.2.2).sum = pairs.length := by
  unfold countFromPairs
  have hperm :=
    (List.perm_insertionSort catShipLE (pairCounts pairs)).map
      fun t : String × String × Nat => t.2.2
  rw [hperm.sum_eq]
  unfold pairCounts
  rw [List.map_map]
  have hc : ((fun t : String × String × Nat => t.2.2) ∘
      fun p : String × String => (p.1, p.2, pairs.count p)) = fun p => pairs.count p := rfl
  rw [hc]
  exact sum_map_count_dedup pairs

/-- C5: find_number_of_order_per_category returns one counted row per
distinct (category, sub-category) pair observed — membership is exactly
pair-observed-with-its-count, no duplicate pair, no tie or maximum
selection — and the returned counts sum to the number of input rows
with non-null category and sub-category. -/
theorem category_counts_spec (rows : List Row) :
    (∀ c s n, (c, s, n) ∈ find_number_of_order_per_category rows ↔
        ((c, s) ∈ catSubPairs rows ∧ n = (catSubPairs rows).count (c, s))) ∧
      ((find_number_of_order_per_category rows).map fun t => (t.1, t.2.1)).Nodup ∧
      ((find_number_of_order_per_category rows).map fun t => t.2.2).sum =
        (rows.filter fun r => r.category.isSome && r.subCategory.isSome).length :=
  ⟨fun c s n => countFromPairs_mem (catSubPairs rows) c s n,
    countFromPairs_nodup (catSubPairs rows),
    (countFromPairs_sum (catSubPairs rows)).trans (catSubPairs_length rows)⟩

theorem regionProfitPairs_filter (rows : List Row) :
    regionProfitPairs (rows.filter fun r => r.region.isSome) = regionProfitPairs rows := by
  induction rows with
  | nil => rfl
  | cons r rows ih =>
    simp only [regionProfitPairs] at ih ⊢
    cases h : r.region <;>
      simp [List.filter_cons, List.filterMap_cons, h, ih]

theorem catShipPairs_filter (rows : List Row) :
    catShipPairs (rows.filter fun r => r.category.isSome && r.shipMode.isSome) =
      catShipPairs rows := by
  induction rows with
  | nil => rfl
  | cons r rows ih =>
    simp only [catShipPairs] at ih ⊢
    cases hc : r.category <;> cases hs : r.shipMode <;>
      simp [List.filter_cons, List.filterMap_cons, hc, hs, ih]

theorem catSubPairs_filter (rows : List Row) :
    catSubPairs (rows.filter fun r => r.category.isSome && r.subCategory.isSome) =
      catSubPairs rows := by
  induction rows with
  | nil => rfl
  | cons r rows ih =>
    simp only [catSubPairs] at ih ⊢
    cases hc : r.category <;> cases hs : r.subCategory <;>
      simp [List.filter_cons, List.filterMap_cons, hc, hs, ih]

/-- C10: rows whose grouping key is null are silently excluded from all
three aggregations: each aggregator returns the same report on the full
row list as on the row list restricted to rows whose grouping keys are
all non-null, so a null-keyed row contributes to no group, forms no
null-keyed group, and raises no error. -/
theorem null_keys_excluded (rows : List Row) :
    calculate_most_profitable_region rows =
        calculate_most_profitable_region (rows.filter fun r => r.region.isSome) ∧
      find_most_common_ship_method rows =
        find_most_common_ship_method
          (rows.filter fun r => r.category.isSome && r.shipMode.isSome) ∧
      find_number_of_order_per_category rows =
        find_number_of_order_per_category
          (rows.filter fun r => r.category.isSome && r.subCategory.isSome) := by
  refine ⟨?_, ?_, ?_⟩
  · unfold calculate_most_profitable_region
    rw [regionProfitPairs_filter]
  · unfold find_most_common_ship_method
    rw [catShipPairs_filter]
  · unfold find_number_of_order_per_category
    rw [catSubPairs_filter]

theorem catShipPairs_map_addProfit (rows : List Row) :
    catShipPairs (rows.map addProfitRow) = catShipPairs rows := by
  induction rows with
  | nil => rfl
  | cons r rows ih =>
    simp only [catShipPairs] at ih ⊢
    cases hc : r.category <;> cases hs : r.shipMode <;>
      simp [addProfitRow, List.map_cons, List.filterMap_cons, hc, hs, ih]

theorem catSubPairs_map_addProfit (rows : List Row) :
    catSubPairs (rows.map addProfitRow) = catSubPairs rows := by
  induction rows with
  | nil => rfl
  | cons r rows ih =>
    simp only [catSubPairs] at ih ⊢
    cases hc : r.category <;> cases hs : r.subCategory <;>
      simp [addProfitRow, List.map_cons, List.filterMap_cons, hc, hs, ih]

/-- C9: the ship-method and category aggregators do not read Profit, so
they produce the same report on the originally supplied rows as on the
profit-augmented rows; consequently the bundle of
generate_analytics_reports carries ship-method and category reports
equal to those computed from the dataset as originally supplied, while
the region report is computed from the profit-augmented result. -/
theorem reports_wiring (df : DataFrame)
    (hl : df.hasListPrice = true) (hq : df.hasQuantity = true)
    (hd : df.hasDiscountPercent = true) (hc : df.hasCostPrice = true) :
    ∃ rep, generate_analytics_reports df = .ok rep ∧
      rep.most_common_ship_method = find_most_common_ship_method df.rows ∧
      rep.orders_by_category = find_number_of_order_per_category df.rows ∧
      rep.most_profitable_region =
        calculate_most_profitable_region rep.orders_with_profit.rows ∧
      find_most_common_ship_method rep.orders_with_profit.rows =
        find_most_common_ship_method df.rows ∧
      find_number_of_order_per_category rep.orders_with_profit.rows =
        find_number_of_order_per_category df.rows := by
  have hok : calculate_profit_by_order df =
      .ok { df with rows := df.rows.map addProfitRow, hasProfit := true } := by
    simp [calculate_profit_by_order, hl, hq, hd, hc]
  have hpost : calculate_profit_by_order_post df =
      { df with rows := df.rows.map addProfitRow, hasProfit := true } := by
    simp [calculate_profit_by_order_post, hok]
  have hship : find_most_common_ship_method (df.rows.map addProfitRow) =
      find_most_common_ship_method df.rows := by
    unfold find_most_common_ship_method
    rw [catShipPairs_map_addProfit]
  have hcat : find_number_of_order_per_category (df.rows.map addProfitRow) =
      find_number_of_order_per_category df.rows := by
    unfold find_number_of_order_per_category
    rw [catSubPairs_map_addProfit]
  refine
    ⟨{ orders_with_profit := { df with rows := df.rows.map addProfitRow, hasProfit := true }
       most_profitable_region := calculate_most_profitable_region (df.rows.map addProfitRow)
       most_common_ship_method := find_most_common_ship_method df.rows
       orders_by_category := find_number_of_order_per_category df.rows },
      ?_, rfl, rfl, rfl, hship, hcat⟩
  unfold generate_analytics_reports
  rw [hok]
  simp only [hpost]
  rw [hship, hcat]

/-- C9 witness: the wiring theorem applied to a concrete one-row frame. -/
theorem reports_wiring_witness :
    ∃ rep, generate_analytics_reports sampleDF = .ok rep ∧
      rep.most_common_ship_method = find_most_common_ship_method sampleDF.rows ∧
      rep.orders_by_category = find_number_of_order_per_category sampleDF.rows ∧
      rep.most_profitable_region =
        calculate_most_profitable_region rep.orders_with_profit.rows ∧
      find_most_common_ship_method rep.orders_with_profit.rows =
        find_most_common_ship_method sampleDF.rows ∧
      find_number_of_order_per_category rep.orders_with_profit.rows =
        find_number_of_order_per_category sampleDF.rows :=
  reports_wiring sampleDF rfl rfl rfl rfl

end OrdersAnalytics
